import Mathlib

/-!
Verification of the time-series alignment, validation and consolidation engine
of the marketregime_hmm repository.  Dates are embedded as integers counting
days since 1970-01-01; pandas DataFrames become lists of rows; NaN cells become
`Option` values; a raised `ValueError` becomes an `Except.error` carrying a
structured description of the message.  Each definition names the source
function it embeds (files `src/classes/data/data_manager.py`,
`src/classes/data/clean_data.py`, `src/classes/data/manager.py`).
-/

namespace MarketRegime

/-! ### Civil-date arithmetic

The pandas calendar machinery (`pd.to_datetime`, `Timestamp.weekday`,
`USFederalHolidayCalendar`) is embedded via exact integer civil-date
arithmetic on day numbers (days since the epoch 1970-01-01). -/

/-- Day number of the civil date `(y, m, d)` (proleptic Gregorian),
counting days since 1970-01-01. -/
def daysFromCivil (y m d : ℤ) : ℤ :=
  let y' := if m ≤ 2 then y - 1 else y
  let era := y'.fdiv 400
  let yoe := y' - era * 400
  let mp := (m + 9) % 12
  let doy := (153 * mp + 2).fdiv 5 + d - 1
  let doe := yoe * 365 + yoe.fdiv 4 - yoe.fdiv 100 + doy
  era * 146097 + doe - 719468

/-- Civil year of the day number `z`. -/
def yearOfDay (z : ℤ) : ℤ :=
  let z' := z + 719468
  let era := z'.fdiv 146097
  let doe := z' - era * 146097
  let yoe := (doe - doe.fdiv 1460 + doe.fdiv 36524 - doe.fdiv 146096).fdiv 365
  let y := yoe + era * 400
  let doy := doe - (365 * yoe + yoe.fdiv 4 - yoe.fdiv 100)
  let mp := (5 * doy + 2).fdiv 153
  let m := mp + (if mp < 10 then 3 else -9)
  if m ≤ 2 then y + 1 else y

/-- Day of the week of day number `z`, with Monday = 0 (pandas
`Timestamp.weekday` convention); 1970-01-01 was a Thursday (= 3). -/
def dayOfWeek (z : ℤ) : ℤ := (z + 3) % 7

/-- Observed date of a fixed-date holiday under the pandas `nearest_workday`
rule: a Saturday holiday is observed the Friday before, a Sunday holiday the
Monday after. -/
def observedNearest (z : ℤ) : ℤ :=
  if dayOfWeek z = 5 then z - 1 else if dayOfWeek z = 6 then z + 1 else z

/-- Day number of the `n`-th (1-based) weekday `wd` of month `m` of year `y`. -/
def nthWeekday (y m wd n : ℤ) : ℤ :=
  let first := daysFromCivil y m 1
  first + (wd - dayOfWeek first) % 7 + 7 * (n - 1)

/-- Day number of the last weekday `wd` on or before the civil date
`(y, m, d)`. -/
def lastWeekdayOnOrBefore (y m d wd : ℤ) : ℤ :=
  let t := daysFromCivil y m d
  t - (dayOfWeek t - wd) % 7

/-- Observed U.S. federal holidays of calendar year `y`, after pandas
`USFederalHolidayCalendar`: New Year's Day, Martin Luther King Jr. Day
(from 1986), Washington's Birthday, Memorial Day, Juneteenth (from 2021),
Independence Day, Labor Day, Columbus Day, Veterans Day, Thanksgiving and
Christmas, fixed-date holidays shifted by `nearest_workday`. -/
def holidaysOfYear (y : ℤ) : List ℤ :=
  [observedNearest (daysFromCivil y 1 1)]
    ++ (if 1986 ≤ y then [nthWeekday y 1 0 3] else [])
    ++ [nthWeekday y 2 0 3, lastWeekdayOnOrBefore y 5 31 0]
    ++ (if 2021 ≤ y then [observedNearest (daysFromCivil y 6 19)] else [])
    ++ [observedNearest (daysFromCivil y 7 4),
        nthWeekday y 9 0 1,
        nthWeekday y 10 0 2,
        observedNearest (daysFromCivil y 11 11),
        nthWeekday y 11 3 4,
        observedNearest (daysFromCivil y 12 25)]

/-- Whether day number `z` is an observed U.S. federal holiday (checks the
holiday lists of the surrounding years so that observed dates spilling across
a year boundary are caught). -/
def isUSFederalHoliday (z : ℤ) : Bool :=
  let y := yearOfDay z
  (holidaysOfYear (y - 1)).contains z
    || (holidaysOfYear y).contains z
    || (holidaysOfYear (y + 1)).contains z

/-- Whether day number `z` is a business day of the custom business-day
frequency `US_BD = CustomBusinessDay(calendar=USFederalHolidayCalendar())`:
a Monday–Friday that is not an observed federal holiday. -/
def isBusinessDay (z : ℤ) : Bool :=
  dayOfWeek z < 5 && ! isUSFederalHoliday z

/-- Embedding of `pd.date_range(lo, hi, freq=US_BD)`: the ordered list of
business days between `lo` and `hi` inclusive. -/
def businessDayRange (lo hi : ℤ) : List ℤ :=
  ((List.range (hi + 1 - lo).toNat).map (fun i : ℕ => lo + (i : ℤ))).filter
    (fun d => isBusinessDay d)

/-! ### List helpers shared by the embedded pandas operations -/

/-- Insertion into a `≤`-sorted list, keeping duplicates (the order
`DataFrame.sort_values` produces). -/
def insertSorted (x : ℤ) : List ℤ → List ℤ
  | [] => [x]
  | y :: ys => if x ≤ y then x :: y :: ys else y :: insertSorted x ys

/-- Ascending sort of a list of day numbers (`DataFrame.sort_values`). -/
def sortDates (l : List ℤ) : List ℤ := l.foldr insertSorted []

/-- Insertion into a strictly sorted list, dropping duplicates (the key
order produced by `groupby` and by `Index.union`). -/
def insertKey (x : ℤ) : List ℤ → List ℤ
  | [] => [x]
  | y :: ys =>
    if x < y then x :: y :: ys
    else if x = y then y :: ys
    else y :: insertKey x ys

/-- Sorted deduplicated keys of a list of day numbers. -/
def sortedKeys (l : List ℤ) : List ℤ := l.foldr insertKey []

/-- Minimum of a list of day numbers (`Series.min`); 0 on the empty list,
which the pipeline never reaches. -/
def minD : List ℤ → ℤ
  | [] => 0
  | x :: xs => xs.foldl min x

/-- Maximum of a list of day numbers (`Series.max`). -/
def maxD : List ℤ → ℤ
  | [] => 0
  | x :: xs => xs.foldl max x

/-- Maximum of a list of rationals (`groupby` aggregation `max`). -/
def listMax : List ℚ → ℚ
  | [] => 0
  | x :: xs => xs.foldl max x

/-- Minimum of a list of rationals (`groupby` aggregation `min`). -/
def listMin : List ℚ → ℚ
  | [] => 0
  | x :: xs => xs.foldl min x

/-! ### Data model -/

/-- Row of a macro series DataFrame: a `date` cell (day number, already
normalized) and a `value` cell that may be missing (NaN). -/
structure MacroRow where
  date : ℤ
  value : Option ℚ
deriving DecidableEq

/-- Row of a raw intraday DataFrame: a timestamp split into its calendar
day and minute of day, plus the OHLCV cells.  `open` is a Lean keyword, so
that column is embedded as the field `open_`. -/
structure IntradayRow where
  day : ℤ
  minute : ℕ
  open_ : ℚ
  high : ℚ
  low : ℚ
  close : ℚ
  volume : ℚ
deriving DecidableEq

/-- Daily OHLCV bar produced by `group_by_date`, indexed by its date. -/
structure DailyBar where
  date : ℤ
  open_ : ℚ
  high : ℚ
  low : ℚ
  close : ℚ
  volume : ℚ
deriving DecidableEq

/-- Date-indexed table with an arbitrary number of value columns, all of
which may hold missing cells: the shape the consolidation step joins. -/
structure Frame where
  width : ℕ
  rows : List (ℤ × List (Option ℚ))
deriving DecidableEq

/-- Structured content of the `ValueError` messages the validators raise
and of the crashes pandas itself produces on degenerate input. -/
inductive DataError
  /-- "Anomaly detected: Negative values found in the value column." -/
  | negativeValues
  /-- "Anomaly detected: Duplicate rows found." -/
  | duplicateDates
  /-- "Anomaly detected: Null values found after cleaning." -/
  | nullValues
  /-- `pd.date_range` raises when fed the NaT endpoints an empty series
  produces. -/
  | emptySpan
  /-- "Anomaly: missing {count} business dates, e.g. {sample}" with
  `sample = missing[:5]`. -/
  | calendarGap (count : ℕ) (sample : List ℤ)
  /-- `DataFrame.reindex` raises on an axis with duplicate labels. -/
  | duplicateLabels
deriving DecidableEq

/-- Equality of embedded raise-or-return results is decidable, so that
concrete pipeline runs can be checked by evaluation. -/
instance {ε α : Type} [DecidableEq ε] [DecidableEq α] :
    DecidableEq (Except ε α) := fun x y =>
  match x, y with
  | .ok a, .ok b =>
    if h : a = b then .isTrue (by rw [h]) else .isFalse (by simp [h])
  | .error a, .error b =>
    if h : a = b then .isTrue (by rw [h]) else .isFalse (by simp [h])
  | .ok _, .error _ => .isFalse (by simp)
  | .error _, .ok _ => .isFalse (by simp)

/-! ### Embedded pipeline operations -/

/-- Half-even rounding of a rational to the nearest integer
(`numpy.round` semantics, used by `Series.round`). -/
def roundHalfEven (q : ℚ) : ℤ :=
  let f := ⌊q⌋
  let r := q - f
  if r < 1/2 then f
  else if 1/2 < r then f + 1
  else if f % 2 = 0 then f else f + 1

/-- Rounding to 7 decimal places (`df[col].round(7)`). -/
def round7 (q : ℚ) : ℚ := (roundHalfEven (q * 10000000) : ℚ) / 10000000

/-- Forward fill of one row of cells given the per-column carry of last
seen values: a present cell is kept, a missing cell takes the carry. -/
def ffillCells (carry vals : List (Option ℚ)) : List (Option ℚ) :=
  List.zipWith (fun c v => v.orElse fun _ => c) carry vals

/-- Forward fill of a row-major table, threading the per-column carry of
last seen values downward (`DataFrame.ffill`: per column, top to bottom,
a leading missing cell stays missing). -/
def ffillRows (carry : List (Option ℚ)) :
    List (ℤ × List (Option ℚ)) → List (ℤ × List (Option ℚ))
  | [] => []
  | (k, v) :: rest =>
    let v' := ffillCells carry v
    (k, v') :: ffillRows v' rest

/-- Embedding of `DataManager.forward_fill_missing_data` /
`clean_data.forward_fill_missing_data`: `return df.ffill()`. -/
def forward_fill_missing_data (f : Frame) : Frame :=
  { f with rows := ffillRows (List.replicate f.width none) f.rows }

/-- Embedding of `percent_to_decimal(df, ["value"])` on a macro series:
`df[col] = df[col] / 100.0; df[col] = df[col].round(7)`. -/
def percent_to_decimal (df : List MacroRow) : List MacroRow :=
  df.map fun r => { r with value := r.value.map fun v => round7 (v / 100) }

/-- State of the caller's DataFrame after `percent_to_decimal` returns:
the function assigns into the caller's columns (`df[col] = ...` with no
prior copy), so the caller observes the transformed frame. -/
def percent_to_decimal_inputAfter (df : List MacroRow) : List MacroRow :=
  percent_to_decimal df

/-- State of the caller's DataFrame after `forward_fill_missing_data`
returns: `df.ffill()` allocates a new frame and the input is untouched. -/
def forward_fill_inputAfter (f : Frame) : Frame := f

/-- Embedding of `check_anomalies_macroeconomic`: raises on any negative
`value`, then on any duplicated `date`, then on any remaining null cell,
else returns the series unchanged.  A NaN cell compares as not-negative,
exactly as `df["value"] < 0` evaluates to False on NaN. -/
def check_anomalies_macroeconomic (df : List MacroRow) :
    Except DataError (List MacroRow) :=
  if df.any (fun r => match r.value with | some v => decide (v < 0) | none => false) then
    .error .negativeValues
  else if ¬ (df.map (·.date)).Nodup then
    .error .duplicateDates
  else if df.any (fun r => r.value.isNone) then
    .error .nullValues
  else
    .ok df

/-- State of the caller's DataFrame after `check_anomalies_macroeconomic`
returns: the check only reads, so the input is untouched. -/
def check_anomalies_inputAfter (df : List MacroRow) : List MacroRow := df

/-- Embedding of `check_time_gaps`: on a copy, normalize and sort the
dates, build `expected = pd.date_range(min, max, freq=US_BD)`, and raise
`calendarGap` with the count and first five of
`expected.difference(dates)` when that difference is nonempty; the
original series is returned untouched on success.  An empty series makes
`pd.date_range` itself raise on NaT endpoints. -/
def check_time_gaps (df : List MacroRow) : Except DataError (List MacroRow) :=
  if df.isEmpty then .error .emptySpan
  else
    let ds := df.map (·.date)
    let expected := businessDayRange (minD ds) (maxD ds)
    if expected = sortDates ds then .ok df
    else
      let missing := expected.filter fun d => ! ds.contains d
      if missing.isEmpty then .ok df
      else .error (.calendarGap missing.length (missing.take 5))

/-- State of the caller's DataFrame after `check_time_gaps` returns: the
check works on `df.copy()`, so the input is untouched. -/
def check_time_gaps_inputAfter (df : List MacroRow) : List MacroRow := df

/-- Embedding of `create_rows_for_missing_dates`: normalize the dates, set
them as the sorted index, and `reindex` onto
`pd.date_range(index.min(), index.max(), freq=US_BD)`.  Reindexing keeps
the row values of a date that is present and introduces an all-missing row
for a date that is absent; pandas raises on an empty frame (NaT endpoints)
and on duplicate index labels. -/
def create_rows_for_missing_dates (df : List MacroRow) :
    Except DataError (List MacroRow) :=
  if df.isEmpty then .error .emptySpan
  else
    let ds := df.map (·.date)
    if ¬ ds.Nodup then .error .duplicateLabels
    else
      let bidx := businessDayRange (minD ds) (maxD ds)
      .ok (bidx.map fun b =>
        { date := b
          value := match df.find? (fun r => r.date == b) with
                   | some r => r.value
                   | none => none })

/-- Embedding of `group_by_date`: extract the calendar date of each
timestamp, group by it (`groupby` sorts the keys), and aggregate
`open = first, high = max, low = min, close = last, volume = sum` within
each group in received row order. -/
def group_by_date (df : List IntradayRow) : List DailyBar :=
  (sortedKeys (df.map (·.day))).map fun d =>
    let g := df.filter fun r => r.day == d
    { date := d
      open_ := (g.map (·.open_)).headD 0
      high := listMax (g.map (·.high))
      low := listMin (g.map (·.low))
      close := (g.map (·.close)).getLastD 0
      volume := (g.map (·.volume)).sum }

/-- Look up the cells of the row keyed `k` (unique-key regime). -/
def lookupRow (rs : List (ℤ × List (Option ℚ))) (k : ℤ) :
    Option (List (Option ℚ)) :=
  (rs.find? fun r => r.1 == k).map (·.2)

/-- Embedding of `DataFrame.join(other, how="outer")` on unique indices:
the result is indexed by the sorted union of the two indices, each row
holding the left cells (or a NaN pad) followed by the right cells (or a
NaN pad). -/
def outerJoin (a b : Frame) : Frame :=
  { width := a.width + b.width
    rows := (sortedKeys (a.rows.map (·.1) ++ b.rows.map (·.1))).map fun k =>
      (k, ((lookupRow a.rows k).getD (List.replicate a.width none))
            ++ ((lookupRow b.rows k).getD (List.replicate b.width none))) }

/-- Embedding of `df.drop(dates, axis=0, errors="ignore")`. -/
def dropDates (f : Frame) (ds : List ℤ) : Frame :=
  { f with rows := f.rows.filter fun r => ! ds.contains r.1 }

/-- Embedding of `df.dropna()`: keep only the rows with every cell
present. -/
def dropnaFrame (f : Frame) : Frame :=
  { f with rows := f.rows.filter fun r => r.2.all (·.isSome) }

/-- Embedding of the consolidation tail of
`DataManager.merge_market_and_macro_data`: outer-join the cleaned SPY,
VIX, yield-curve and credit-spread frames on their date indices, drop the
reference series' originally-missing dates, forward-fill across the joined
table, and drop every row still holding a missing cell. -/
def merge_market_and_macro_data (spy vix curve spread : Frame)
    (spyMissing : List ℤ) : Frame :=
  dropnaFrame (forward_fill_missing_data
    (dropDates (outerJoin (outerJoin (outerJoin spy vix) curve) spread)
      spyMissing))

/-! ### Helper lemmas about the list machinery -/

theorem mem_insertSorted {a x : ℤ} {l : List ℤ} :
    a ∈ insertSorted x l ↔ a = x ∨ a ∈ l := by
  induction l with
  | nil => simp [insertSorted]
  | cons y ys ih =>
    by_cases h : x ≤ y
    · simp [insertSorted, h]
    · simp only [insertSorted, if_neg h, List.mem_cons, ih]
      tauto

theorem mem_sortDates {a : ℤ} {l : List ℤ} : a ∈ sortDates l ↔ a ∈ l := by
  induction l with
  | nil => simp [sortDates]
  | cons x xs ih =>
    simp only [sortDates, List.foldr_cons] at *
    rw [mem_insertSorted, ih, List.mem_cons]

theorem mem_insertKey {a x : ℤ} {l : List ℤ} :
    a ∈ insertKey x l ↔ a = x ∨ a ∈ l := by
  induction l with
  | nil => simp [insertKey]
  | cons y ys ih =>
    by_cases h1 : x < y
    · simp [insertKey, h1]
    · by_cases h2 : x = y
      · subst h2
        rw [insertKey, if_neg h1, if_pos rfl, List.mem_cons]
        tauto
      · rw [insertKey, if_neg h1, if_neg h2, List.mem_cons, List.mem_cons, ih]
        tauto

theorem pairwise_insertKey {x : ℤ} {l : List ℤ}
    (h : l.Pairwise (· < ·)) : (insertKey x l).Pairwise (· < ·) := by
  induction l with
  | nil => simp [insertKey]
  | cons y ys ih =>
    rw [List.pairwise_cons] at h
    obtain ⟨hy, hys⟩ := h
    by_cases h1 : x < y
    · rw [insertKey, if_pos h1, List.pairwise_cons, List.pairwise_cons]
      refine ⟨?_, hy, hys⟩
      intro b hb
      rcases List.mem_cons.mp hb with rfl | hb
      · exact h1
      · exact lt_trans h1 (hy b hb)
    · by_cases h2 : x = y
      · rw [insertKey, if_neg h1, if_pos h2, List.pairwise_cons]
        exact ⟨hy, hys⟩
      · rw [insertKey, if_neg h1, if_neg h2, List.pairwise_cons]
        refine ⟨?_, ih hys⟩
        intro b hb
        rcases mem_insertKey.mp hb with rfl | hb
        · omega
        · exact hy b hb

theorem mem_sortedKeys {a : ℤ} {l : List ℤ} : a ∈ sortedKeys l ↔ a ∈ l := by
  induction l with
  | nil => simp [sortedKeys]
  | cons x xs ih =>
    simp only [sortedKeys, List.foldr_cons] at *
    rw [mem_insertKey, ih, List.mem_cons]

theorem pairwise_sortedKeys (l : List ℤ) :
    (sortedKeys l).Pairwise (· < ·) := by
  induction l with
  | nil => simp [sortedKeys]
  | cons x xs ih => exact pairwise_insertKey ih

theorem nodup_sortedKeys (l : List ℤ) : (sortedKeys l).Nodup :=
  (pairwise_sortedKeys l).imp ne_of_lt

theorem foldl_min_le_init (xs : List ℤ) (a : ℤ) : xs.foldl min a ≤ a := by
  induction xs generalizing a with
  | nil => exact le_refl a
  | cons x xs ih =>
    exact le_trans (ih (min a x)) (min_le_left a x)

theorem foldl_min_le_mem {y : ℤ} {xs : List ℤ} (h : y ∈ xs) (a : ℤ) :
    xs.foldl min a ≤ y := by
  induction xs generalizing a with
  | nil => cases h
  | cons x xs ih =>
    rcases List.mem_cons.mp h with rfl | h
    · exact le_trans (foldl_min_le_init xs (min a y)) (min_le_right a y)
    · exact ih h (min a x)

theorem foldl_min_mem_or (xs : List ℤ) (a : ℤ) :
    xs.foldl min a = a ∨ xs.foldl min a ∈ xs := by
  induction xs generalizing a with
  | nil => exact Or.inl rfl
  | cons x xs ih =>
    rcases ih (min a x) with h | h
    · rcases min_choice a x with h' | h'
      · exact Or.inl (by rw [List.foldl_cons, h, h'])
      · refine Or.inr ?_
        rw [List.foldl_cons, h, h']
        exact List.mem_cons_self x xs
    · exact Or.inr (List.mem_cons_of_mem x h)

theorem minD_le {d : ℤ} {l : List ℤ} (h : d ∈ l) : minD l ≤ d := by
  cases l with
  | nil => cases h
  | cons x xs =>
    rcases List.mem_cons.mp h with rfl | h
    · exact foldl_min_le_init xs d
    · exact foldl_min_le_mem h x

theorem minD_mem {l : List ℤ} (h : l ≠ []) : minD l ∈ l := by
  cases l with
  | nil => exact absurd rfl h
  | cons x xs =>
    rcases foldl_min_mem_or xs x with h' | h'
    · rw [minD, h']; exact List.mem_cons_self x xs
    · exact List.mem_cons_of_mem x h'

theorem foldl_max_init_le (xs : List ℤ) (a : ℤ) : a ≤ xs.foldl max a := by
  induction xs generalizing a with
  | nil => exact le_refl a
  | cons x xs ih =>
    exact le_trans (le_max_left a x) (ih (max a x))

theorem foldl_max_mem_le {y : ℤ} {xs : List ℤ} (h : y ∈ xs) (a : ℤ) :
    y ≤ xs.foldl max a := by
  induction xs generalizing a with
  | nil => cases h
  | cons x xs ih =>
    rcases List.mem_cons.mp h with rfl | h
    · exact le_trans (le_max_right a y) (foldl_max_init_le xs (max a y))
    · exact ih h (max a x)

theorem foldl_max_mem_or (xs : List ℤ) (a : ℤ) :
    xs.foldl max a = a ∨ xs.foldl max a ∈ xs := by
  induction xs generalizing a with
  | nil => exact Or.inl rfl
  | cons x xs ih =>
    rcases ih (max a x) with h | h
    · rcases max_choice a x with h' | h'
      · exact Or.inl (by rw [List.foldl_cons, h, h'])
      · refine Or.inr ?_
        rw [List.foldl_cons, h, h']
        exact List.mem_cons_self x xs
    · exact Or.inr (List.mem_cons_of_mem x h)

theorem le_maxD {d : ℤ} {l : List ℤ} (h : d ∈ l) : d ≤ maxD l := by
  cases l with
  | nil => cases h
  | cons x xs =>
    rcases List.mem_cons.mp h with rfl | h
    · exact foldl_max_init_le xs d
    · exact foldl_max_mem_le h x

theorem maxD_mem {l : List ℤ} (h : l ≠ []) : maxD l ∈ l := by
  cases l with
  | nil => exact absurd rfl h
  | cons x xs =>
    rcases foldl_max_mem_or xs x with h' | h'
    · rw [maxD, h']; exact List.mem_cons_self x xs
    · exact List.mem_cons_of_mem x h'

theorem mem_businessDayRange {d lo hi : ℤ} :
    d ∈ businessDayRange lo hi ↔
      lo ≤ d ∧ d ≤ hi ∧ isBusinessDay d = true := by
  unfold businessDayRange
  rw [List.mem_filter, List.mem_map]
  constructor
  · rintro ⟨⟨i, hi', rfl⟩, hbd⟩
    rw [List.mem_range] at hi'
    exact ⟨by omega, by omega, hbd⟩
  · rintro ⟨h1, h2, h3⟩
    refine ⟨⟨(d - lo).toNat, ?_, by omega⟩, h3⟩
    rw [List.mem_range]
    omega

theorem pairwise_businessDayRange (lo hi : ℤ) :
    (businessDayRange lo hi).Pairwise (· < ·) := by
  unfold businessDayRange
  refine List.Pairwise.filter _ ?_
  refine List.Pairwise.map _ ?_ (List.pairwise_lt_range _)
  intro a b hab
  omega

theorem nodup_businessDayRange (lo hi : ℤ) :
    (businessDayRange lo hi).Nodup :=
  (pairwise_businessDayRange lo hi).imp ne_of_lt

theorem foldl_qmax_init_le (xs : List ℚ) (a : ℚ) : a ≤ xs.foldl max a := by
  induction xs generalizing a with
  | nil => exact le_refl a
  | cons x xs ih =>
    exact le_trans (le_max_left a x) (ih (max a x))

theorem foldl_qmax_mem_le {y : ℚ} {xs : List ℚ} (h : y ∈ xs) (a : ℚ) :
    y ≤ xs.foldl max a := by
  induction xs generalizing a with
  | nil => cases h
  | cons x xs ih =>
    rcases List.mem_cons.mp h with rfl | h
    · exact le_trans (le_max_right a y) (foldl_qmax_init_le xs (max a y))
    · exact ih h (max a x)

theorem foldl_qmax_mem_or (xs : List ℚ) (a : ℚ) :
    xs.foldl max a = a ∨ xs.foldl max a ∈ xs := by
  induction xs generalizing a with
  | nil => exact Or.inl rfl
  | cons x xs ih =>
    rcases ih (max a x) with h | h
    · rcases max_choice a x with h' | h'
      · exact Or.inl (by rw [List.foldl_cons, h, h'])
      · refine Or.inr ?_
        rw [List.foldl_cons, h, h']
        exact List.mem_cons_self x xs
    · exact Or.inr (List.mem_cons_of_mem x h)

theorem le_listMax {y : ℚ} {l : List ℚ} (h : y ∈ l) : y ≤ listMax l := by
  cases l with
  | nil => cases h
  | cons x xs =>
    rcases List.mem_cons.mp h with rfl | h
    · exact foldl_qmax_init_le xs y
    · exact foldl_qmax_mem_le h x

theorem listMax_mem {l : List ℚ} (h : l ≠ []) : listMax l ∈ l := by
  cases l with
  | nil => exact absurd rfl h
  | cons x xs =>
    rcases foldl_qmax_mem_or xs x with h' | h'
    · rw [listMax, h']; exact List.mem_cons_self x xs
    · exact List.mem_cons_of_mem x h'

theorem foldl_qmin_le_init (xs : List ℚ) (a : ℚ) : xs.foldl min a ≤ a := by
  induction xs generalizing a with
  | nil => exact le_refl a
  | cons x xs ih =>
    exact le_trans (ih (min a x)) (min_le_left a x)

theorem foldl_qmin_le_mem {y : ℚ} {xs : List ℚ} (h : y ∈ xs) (a : ℚ) :
    xs.foldl min a ≤ y := by
  induction xs generalizing a with
  | nil => cases h
  | cons x xs ih =>
    rcases List.mem_cons.mp h with rfl | h
    · exact le_trans (foldl_qmin_le_init xs (min a y)) (min_le_right a y)
    · exact ih h (min a x)

theorem foldl_qmin_mem_or (xs : List ℚ) (a : ℚ) :
    xs.foldl min a = a ∨ xs.foldl min a ∈ xs := by
  induction xs generalizing a with
  | nil => exact Or.inl rfl
  | cons x xs ih =>
    rcases ih (min a x) with h | h
    · rcases min_choice a x with h' | h'
      · exact Or.inl (by rw [List.foldl_cons, h, h'])
      · refine Or.inr ?_
        rw [List.foldl_cons, h, h']
        exact List.mem_cons_self x xs
    · exact Or.inr (List.mem_cons_of_mem x h)

theorem listMin_le {y : ℚ} {l : List ℚ} (h : y ∈ l) : listMin l ≤ y := by
  cases l with
  | nil => cases h
  | cons x xs =>
    rcases List.mem_cons.mp h with rfl | h
    · exact foldl_qmin_le_init xs y
    · exact foldl_qmin_le_mem h x

theorem listMin_mem {l : List ℚ} (h : l ≠ []) : listMin l ∈ l := by
  cases l with
  | nil => exact absurd rfl h
  | cons x xs =>
    rcases foldl_qmin_mem_or xs x with h' | h'
    · rw [listMin, h']; exact List.mem_cons_self x xs
    · exact List.mem_cons_of_mem x h'

theorem find?_date_eq {df : List MacroRow}
    (hnd : (df.map (·.date)).Nodup) {r : MacroRow} (hr : r ∈ df) :
    df.find? (fun s => s.date == r.date) = some r := by
  induction df with
  | nil => cases hr
  | cons a tl ih =>
    rw [List.map_cons, List.nodup_cons] at hnd
    obtain ⟨hna, hntl⟩ := hnd
    by_cases h : a.date = r.date
    · have : a = r := by
        rcases List.mem_cons.mp hr with rfl | hr'
        · rfl
        · exact absurd (h ▸ List.mem_map_of_mem (·.date) hr') hna
      rw [List.find?_cons, show (a.date == r.date) = true from beq_iff_eq.mpr h]
      rw [this]
    · have hr' : r ∈ tl := by
        rcases List.mem_cons.mp hr with rfl | hr'
        · exact absurd rfl h
        · exact hr'
      rw [List.find?_cons, show (a.date == r.date) = false from
        beq_eq_false_iff_ne.mpr h]
      exact ih hntl hr'

theorem ffillCells_idem (c v : List (Option ℚ)) :
    ffillCells c (ffillCells c v) = ffillCells c v := by
  induction c generalizing v with
  | nil => simp [ffillCells]
  | cons a c ih =>
    cases v with
    | nil => simp [ffillCells]
    | cons b v =>
      simp only [ffillCells, List.zipWith_cons_cons] at *
      rw [ih]
      cases b <;> cases a <;> rfl

theorem ffillRows_idem (rs : List (ℤ × List (Option ℚ)))
    (c : List (Option ℚ)) : ffillRows c (ffillRows c rs) = ffillRows c rs := by
  induction rs generalizing c with
  | nil => rfl
  | cons p rest ih =>
    obtain ⟨k, v⟩ := p
    simp only [ffillRows]
    rw [ffillCells_idem c v, ih (ffillCells c v)]

theorem ffillRows_map_fst (rs : List (ℤ × List (Option ℚ)))
    (c : List (Option ℚ)) : (ffillRows c rs).map (·.1) = rs.map (·.1) := by
  induction rs generalizing c with
  | nil => rfl
  | cons p rest ih =>
    obtain ⟨k, v⟩ := p
    simp only [ffillRows, List.map_cons]
    rw [ih]

theorem contains_iff {a : ℤ} {l : List ℤ} : l.contains a = true ↔ a ∈ l :=
  List.elem_iff

theorem filter_beq_of_nodup {x : ℤ} {l : List ℤ} (hnd : l.Nodup)
    (hx : x ∈ l) : l.filter (fun d => d == x) = [x] := by
  induction l with
  | nil => cases hx
  | cons a tl ih =>
    rw [List.nodup_cons] at hnd
    obtain ⟨ha, hntl⟩ := hnd
    rw [List.filter_cons]
    by_cases h : a = x
    · subst h
      rw [if_pos (beq_iff_eq.mpr rfl)]
      rw [List.filter_eq_nil_iff.mpr]
      intro b hb
      simp only [beq_iff_eq]
      intro hba
      exact ha (hba ▸ hb)
    · have hx' : x ∈ tl := by
        rcases List.mem_cons.mp hx with rfl | hx'
        · exact absurd rfl h
        · exact hx'
      rw [if_neg (by simp [h]), ih hntl hx']

theorem group_by_date_dates (df : List IntradayRow) :
    (group_by_date df).map (·.date) = sortedKeys (df.map (·.day)) := by
  unfold group_by_date
  rw [List.map_map]
  have : ((fun bar : DailyBar => bar.date) ∘ fun d =>
      ({ date := d
         open_ := ((df.filter fun r => r.day == d).map (·.open_)).headD 0
         high := listMax ((df.filter fun r => r.day == d).map (·.high))
         low := listMin ((df.filter fun r => r.day == d).map (·.low))
         close := ((df.filter fun r => r.day == d).map (·.close)).getLastD 0
         volume := ((df.filter fun r => r.day == d).map (·.volume)).sum } :
        DailyBar)) = fun d => d := rfl
  rw [this, List.map_id']

theorem mem_map_filter_ne {d x : ℤ} {df : List MacroRow} :
    d ∈ (df.filter fun r => r.date != x).map (·.date) ↔
      d ∈ df.map (·.date) ∧ d ≠ x := by
  rw [List.mem_map]
  constructor
  · rintro ⟨r, hr, rfl⟩
    rw [List.mem_filter] at hr
    exact ⟨List.mem_map_of_mem _ hr.1, by simpa using hr.2⟩
  · rintro ⟨hd, hne⟩
    rw [List.mem_map] at hd
    obtain ⟨r, hr, rfl⟩ := hd
    exact ⟨r, List.mem_filter.mpr ⟨hr, by simpa using hne⟩, rfl⟩

theorem round7_half : round7 (50 / 100 : ℚ) = 1 / 2 := by
  unfold round7 roundHalfEven
  norm_num

/-! ### Claim theorems -/

/-- Claim C9: forward-fill is idempotent — applying
`forward_fill_missing_data` twice to any table yields the same result as
applying it once. -/
theorem c9_forward_fill_idempotent (f : Frame) :
    forward_fill_missing_data (forward_fill_missing_data f) =
      forward_fill_missing_data f := by
  simp only [forward_fill_missing_data]
  rw [ffillRows_idem]

/-- Claim C10: whatever the order of the intraday input rows, the output
of `group_by_date` is indexed by a strictly increasing (hence
duplicate-free) sequence of dates. -/
theorem c10_group_by_date_sorted (df : List IntradayRow) :
    List.Chain' (· < ·) ((group_by_date df).map (·.date)) := by
  rw [group_by_date_dates, List.chain'_iff_pairwise]
  exact pairwise_sortedKeys _

/-- Claim C4, counterexample: a spread series holding a negative value
does not pass the domain-violation branch — the anomaly check raises the
negative-values error on it, contrary to the claim. -/
theorem c4_counterexample :
    check_anomalies_macroeconomic [{ date := 0, value := some (-1) }] ≠
      Except.ok [{ date := 0, value := some (-1) }] := by
  decide

/-- Claim C4, amended: the anomaly check fails on negative values even
for spread series — any series containing a negative value fails the
domain-violation branch with the negative-values error. -/
theorem c4_amended_negative_fails (df : List MacroRow)
    (h : ∃ r ∈ df, ∃ v, r.value = some v ∧ v < 0) :
    check_anomalies_macroeconomic df = Except.error .negativeValues := by
  have hany : df.any
      (fun r => match r.value with | some v => decide (v < 0) | none => false) =
      true := by
    rw [List.any_eq_true]
    obtain ⟨r, hr, v, hv, hneg⟩ := h
    refine ⟨r, hr, ?_⟩
    rw [hv]
    exact decide_eq_true hneg
  simp only [check_anomalies_macroeconomic, hany, if_true]

/-- Claim C4, witness: the amended theorem applied to a one-row spread
series with value −1. -/
theorem c4_witness :
    check_anomalies_macroeconomic [{ date := 0, value := some (-1) }] =
      Except.error .negativeValues :=
  c4_amended_negative_fails _
    ⟨{ date := 0, value := some (-1) }, List.mem_singleton.mpr rfl, -1, rfl,
      by norm_num⟩

/-- Claim C5, counterexample: `percent_to_decimal` rewrites the caller's
value column in place, so after the call the caller's series with value 50
has become the series with value 0.5 — the input is not left unchanged. -/
theorem c5_counterexample :
    percent_to_decimal_inputAfter [{ date := 0, value := some 50 }] ≠
      [{ date := 0, value := some 50 }] := by
  simp only [percent_to_decimal_inputAfter, percent_to_decimal, List.map_cons,
    List.map_nil, Option.map_some']
  intro h
  simp only [List.cons.injEq, MacroRow.mk.injEq, Option.some.injEq,
    round7_half, and_true, true_and] at h
  norm_num at h

/-- Claim C5, amended: forward-fill and the two validation checks leave
their input untouched, but `percent_to_decimal` (and, in the
`data_manager`/`clean_data` variants, the date-normalizing reindex and
grouping stages) assign into the caller's columns, so the caller's
structure is not observably identical before and after that stage. -/
theorem c5_amended_mutation :
    (∀ f : Frame, forward_fill_inputAfter f = f) ∧
    (∀ df : List MacroRow, check_anomalies_inputAfter df = df) ∧
    (∀ df : List MacroRow, check_time_gaps_inputAfter df = df) ∧
    percent_to_decimal_inputAfter [{ date := 0, value := some 50 }] ≠
      [{ date := 0, value := some 50 }] := by
  refine ⟨fun f => rfl, fun df => rfl, fun df => rfl, ?_⟩
  simp only [percent_to_decimal_inputAfter, percent_to_decimal, List.map_cons,
    List.map_nil, Option.map_some']
  intro h
  simp only [List.cons.injEq, MacroRow.mk.injEq, Option.some.injEq,
    round7_half, and_true, true_and] at h
  norm_num at h

/-- Claim C1, counterexample: a series holding every business day of the
week of 2024-07-08 plus the extra Saturday 2024-07-13 (day 19917) passes
`check_time_gaps` even though its date set is not equal to the canonical
business-day calendar over its span — extra dates outside the canonical
set do not make the check fail. -/
theorem c1_counterexample :
    check_time_gaps
        [{ date := 19912, value := some 1 }, { date := 19913, value := some 1 },
         { date := 19914, value := some 1 }, { date := 19915, value := some 1 },
         { date := 19916, value := some 1 }, { date := 19917, value := some 1 }] =
      Except.ok
        [{ date := 19912, value := some 1 }, { date := 19913, value := some 1 },
         { date := 19914, value := some 1 }, { date := 19915, value := some 1 },
         { date := 19916, value := some 1 }, { date := 19917, value := some 1 }] ∧
    (19917 : ℤ) ∈
      ([{ date := 19912, value := some 1 }, { date := 19913, value := some 1 },
        { date := 19914, value := some 1 }, { date := 19915, value := some 1 },
        { date := 19916, value := some 1 },
        { date := 19917, value := some 1 }] : List MacroRow).map (·.date) ∧
    (19917 : ℤ) ∉ businessDayRange 19912 19917 ∧
    minD
        (([{ date := 19912, value := some 1 }, { date := 19913, value := some 1 },
           { date := 19914, value := some 1 }, { date := 19915, value := some 1 },
           { date := 19916, value := some 1 },
           { date := 19917, value := some 1 }] : List MacroRow).map (·.date)) =
      19912 ∧
    maxD
        (([{ date := 19912, value := some 1 }, { date := 19913, value := some 1 },
           { date := 19914, value := some 1 }, { date := 19915, value := some 1 },
           { date := 19916, value := some 1 },
           { date := 19917, value := some 1 }] : List MacroRow).map (·.date)) =
      19917 := by
  decide

/-- Claim C1, amended: for a nonempty series, `check_time_gaps` succeeds
(returning the series) if and only if every date of the canonical
business-day calendar over the series' own span is present in the series'
date set; extra dates outside the canonical set never make it fail. -/
theorem c1_amended_passes_iff (df : List MacroRow) (hne : df ≠ []) :
    check_time_gaps df = Except.ok df ↔
      ∀ d ∈ businessDayRange (minD (df.map (·.date))) (maxD (df.map (·.date))),
        d ∈ df.map (·.date) := by
  have hemp : df.isEmpty = false := by
    cases df with
    | nil => exact absurd rfl hne
    | cons a tl => rfl
  unfold check_time_gaps
  rw [hemp]
  simp only [Bool.false_eq_true, if_false]
  by_cases h1 :
      businessDayRange (minD (df.map (·.date))) (maxD (df.map (·.date))) =
        sortDates (df.map (·.date))
  · rw [if_pos h1]
    constructor
    · intro _ d hd
      exact mem_sortDates.mp (h1 ▸ hd)
    · intro _
      rfl
  · rw [if_neg h1]
    by_cases h2 :
        (businessDayRange (minD (df.map (·.date)))
            (maxD (df.map (·.date)))).filter
          (fun d => ! (df.map (·.date)).contains d) = []
    · rw [if_pos (by rw [h2]; rfl)]
      constructor
      · intro _ d hd
        have := List.filter_eq_nil_iff.mp h2 d hd
        rw [Bool.not_eq_true, Bool.not_eq_false'] at this
        exact contains_iff.mp this
      · intro _
        rfl
    · rw [if_neg (fun hemp' => h2 (List.isEmpty_iff.mp hemp'))]
      constructor
      · intro h
        exact absurd h (by simp)
      · intro hall
        refine absurd (List.filter_eq_nil_iff.mpr ?_) h2
        intro d hd
        rw [Bool.not_eq_true, Bool.not_eq_false']
        exact contains_iff.mpr (hall d hd)

/-- Claim C1, witness: the amended equivalence applied to the gap-free
three-day series 2024-07-08 … 2024-07-10. -/
theorem c1_witness :
    check_time_gaps
        [{ date := 19912, value := some 1 }, { date := 19913, value := some 1 },
         { date := 19914, value := some 1 }] =
      Except.ok
        [{ date := 19912, value := some 1 }, { date := 19913, value := some 1 },
         { date := 19914, value := some 1 }] ↔
      ∀ d ∈ businessDayRange
          (minD (([{ date := 19912, value := some 1 },
              { date := 19913, value := some 1 },
              { date := 19914, value := some 1 }] : List MacroRow).map (·.date)))
          (maxD (([{ date := 19912, value := some 1 },
              { date := 19913, value := some 1 },
              { date := 19914, value := some 1 }] : List MacroRow).map (·.date))),
        d ∈ ([{ date := 19912, value := some 1 },
            { date := 19913, value := some 1 },
            { date := 19914, value := some 1 }] : List MacroRow).map (·.date) :=
  c1_amended_passes_iff _ (by simp)

/-- Characterization of the failure branch of `check_time_gaps`: when the
canonical days of the span that are absent from the series form the
nonempty list `m`, the check raises the calendar-gap error with the count
and the first five entries of `m`. -/
theorem check_time_gaps_eq_error (df : List MacroRow) (m : List ℤ)
    (hne : df ≠ []) (hm : m ≠ [])
    (hfil :
      (businessDayRange (minD (df.map (·.date)))
          (maxD (df.map (·.date)))).filter
        (fun d => ! (df.map (·.date)).contains d) = m) :
    check_time_gaps df = Except.error (.calendarGap m.length (m.take 5)) := by
  have hemp : df.isEmpty = false := by
    cases df with
    | nil => exact absurd rfl hne
    | cons a tl => rfl
  unfold check_time_gaps
  rw [hemp]
  simp only [Bool.false_eq_true, if_false]
  have h1 :
      businessDayRange (minD (df.map (·.date))) (maxD (df.map (·.date))) ≠
        sortDates (df.map (·.date)) := by
    intro h1
    refine hm ?_
    rw [← hfil]
    refine List.filter_eq_nil_iff.mpr ?_
    intro d hd
    rw [Bool.not_eq_true, Bool.not_eq_false']
    exact contains_iff.mpr (mem_sortDates.mp (h1 ▸ hd))
  rw [if_neg h1, hfil]
  rw [if_neg (fun h => hm (List.isEmpty_iff.mp h))]

/-- Claim C8, counterexample: the three-day series 2024-07-08 … 2024-07-10
is gap-free over its own span, yet removing its first business day
2024-07-08 (day 19912) leaves a series that still passes
`check_time_gaps` — the span shrinks with the removal, so the claim fails
for the endpoints. -/
theorem c8_counterexample :
    (∀ d ∈ ([{ date := 19912, value := some 1 },
        { date := 19913, value := some 1 },
        { date := 19914, value := some 1 }] : List MacroRow).map (·.date),
      d ∈ businessDayRange 19912 19914) ∧
    (∀ d ∈ businessDayRange 19912 19914,
      d ∈ ([{ date := 19912, value := some 1 },
          { date := 19913, value := some 1 },
          { date := 19914, value := some 1 }] : List MacroRow).map (·.date)) ∧
    isBusinessDay 19912 = true ∧
    check_time_gaps
        (([{ date := 19912, value := some 1 },
           { date := 19913, value := some 1 },
           { date := 19914, value := some 1 }] : List MacroRow).filter
          (fun r => r.date != 19912)) =
      Except.ok
        [{ date := 19913, value := some 1 },
         { date := 19914, value := some 1 }] := by
  decide

/-- Claim C8, amended: removing a single business day other than the
series' minimum or maximum date from a gap-free series makes
`check_time_gaps` fail, and the failure reports exactly the removed date
(count 1, sample `[x]`); removing the minimum or maximum date instead
shrinks the span, and the check still passes. -/
theorem c8_amended_interior_removal (df : List MacroRow) (x : ℤ)
    (hne : df ≠ [])
    (hsub1 : ∀ d ∈ df.map (·.date),
      d ∈ businessDayRange (minD (df.map (·.date))) (maxD (df.map (·.date))))
    (hsub2 : ∀ d ∈ businessDayRange (minD (df.map (·.date)))
        (maxD (df.map (·.date))),
      d ∈ df.map (·.date))
    (hx : x ∈ df.map (·.date))
    (hxlo : x ≠ minD (df.map (·.date)))
    (hxhi : x ≠ maxD (df.map (·.date))) :
    check_time_gaps (df.filter fun r => r.date != x) =
      Except.error (.calendarGap 1 [x]) := by
  have hdsne : df.map (·.date) ≠ [] := by
    intro h
    exact hne (List.map_eq_nil_iff.mp h)
  have hlo_mem : minD (df.map (·.date)) ∈ df.map (·.date) := minD_mem hdsne
  have hhi_mem : maxD (df.map (·.date)) ∈ df.map (·.date) := maxD_mem hdsne
  have hlo' : minD (df.map (·.date)) ∈
      (df.filter fun r => r.date != x).map (·.date) :=
    mem_map_filter_ne.mpr ⟨hlo_mem, fun h => hxlo h.symm⟩
  have hhi' : maxD (df.map (·.date)) ∈
      (df.filter fun r => r.date != x).map (·.date) :=
    mem_map_filter_ne.mpr ⟨hhi_mem, fun h => hxhi h.symm⟩
  have hds'ne : (df.filter fun r => r.date != x).map (·.date) ≠ [] :=
    List.ne_nil_of_mem hlo'
  have hne' : (df.filter fun r => r.date != x) ≠ [] := by
    intro h
    exact hds'ne (by rw [h]; rfl)
  have hlo_eq :
      minD ((df.filter fun r => r.date != x).map (·.date)) =
        minD (df.map (·.date)) := by
    refine le_antisymm (minD_le hlo') ?_
    exact minD_le (mem_map_filter_ne.mp (minD_mem hds'ne)).1
  have hhi_eq :
      maxD ((df.filter fun r => r.date != x).map (·.date)) =
        maxD (df.map (·.date)) := by
    refine le_antisymm ?_ (le_maxD hhi')
    exact le_maxD (mem_map_filter_ne.mp (maxD_mem hds'ne)).1
  refine check_time_gaps_eq_error _ [x] hne' (by simp) ?_
  rw [hlo_eq, hhi_eq]
  have hcongr :
      ∀ d ∈ businessDayRange (minD (df.map (·.date)))
          (maxD (df.map (·.date))),
        (! ((df.filter fun r => r.date != x).map (·.date)).contains d) =
          (d == x) := by
    intro d hd
    by_cases hdx : d = x
    · subst hdx
      have hnot : d ∉ (df.filter fun r => r.date != d).map (·.date) := by
        intro hmem
        exact (mem_map_filter_ne.mp hmem).2 rfl
      have hcf :
          ((df.filter fun r => r.date != d).map (·.date)).contains d = false := by
        rw [← Bool.not_eq_true]
        intro hc
        exact hnot (contains_iff.mp hc)
      rw [hcf]
      simp
    · have hmem : d ∈ (df.filter fun r => r.date != x).map (·.date) :=
        mem_map_filter_ne.mpr ⟨hsub2 d hd, hdx⟩
      rw [contains_iff.mpr hmem]
      simp [hdx]
  rw [List.filter_congr hcongr]
  exact filter_beq_of_nodup (nodup_businessDayRange _ _) (hsub1 x hx)

/-- Claim C8, witness: removing the interior business day 2024-07-10
(day 19914) from the gap-free week 2024-07-08 … 2024-07-12 makes the
check fail and report exactly that date. -/
theorem c8_witness :
    check_time_gaps
        (([{ date := 19912, value := some 1 },
           { date := 19913, value := some 1 },
           { date := 19914, value := some 1 },
           { date := 19915, value := some 1 },
           { date := 19916, value := some 1 }] : List MacroRow).filter
          (fun r => r.date != 19914)) =
      Except.error (.calendarGap 1 [19914]) :=
  c8_amended_interior_removal _ 19914 (by simp) (by decide) (by decide)
    (by decide) (by decide) (by decide)

/-- Characterization of the success branch of
`create_rows_for_missing_dates` on a nonempty, duplicate-free series: the
output is the canonical calendar of the span, each date carrying the
looked-up value of the matching input row. -/
theorem create_rows_eq_ok (df : List MacroRow) (hne : df ≠ [])
    (hnd : (df.map (·.date)).Nodup) :
    create_rows_for_missing_dates df =
      Except.ok
        ((businessDayRange (minD (df.map (·.date)))
            (maxD (df.map (·.date)))).map fun b =>
          { date := b
            value := match df.find? (fun r => r.date == b) with
                     | some r => r.value
                     | none => none }) := by
  have hemp : df.isEmpty = false := by
    cases df with
    | nil => exact absurd rfl hne
    | cons a tl => rfl
  unfold create_rows_for_missing_dates
  rw [hemp]
  simp only [Bool.false_eq_true, if_false]
  rw [if_neg (fun h => h hnd)]

/-- Claim C6: on a nonempty series with unique dates, the Reindexer's
output is indexed exactly by the canonical calendar of the series' span,
in order and without duplicates; a calendar date present in the input
keeps the input row's value and a calendar date absent from the input
carries the missing value. -/
theorem c6_reindexer_output (df : List MacroRow) (hne : df ≠ [])
    (hnd : (df.map (·.date)).Nodup) :
    ∃ out, create_rows_for_missing_dates df = Except.ok out ∧
      out.map (·.date) =
        businessDayRange (minD (df.map (·.date))) (maxD (df.map (·.date))) ∧
      (out.map (·.date)).Nodup ∧
      (∀ r ∈ df, ∀ row ∈ out, row.date = r.date → row.value = r.value) ∧
      (∀ row ∈ out, row.date ∉ df.map (·.date) → row.value = none) := by
  refine ⟨_, create_rows_eq_ok df hne hnd, ?_, ?_, ?_, ?_⟩
  · rw [List.map_map]
    exact List.map_id' _
  · rw [List.map_map]
    rw [show (List.map ((fun row : MacroRow => row.date) ∘ fun b =>
      ({ date := b
         value := match df.find? (fun r => r.date == b) with
                  | some r => r.value
                  | none => none } : MacroRow)) _) = _ from List.map_id' _]
    exact nodup_businessDayRange _ _
  · intro r hr row hrow hdate
    rw [List.mem_map] at hrow
    obtain ⟨b, hb, rfl⟩ := hrow
    simp only at hdate ⊢
    rw [hdate, find?_date_eq hnd hr]
  · intro row hrow habs
    rw [List.mem_map] at hrow
    obtain ⟨b, hb, rfl⟩ := hrow
    simp only at habs ⊢
    rw [List.find?_eq_none.mpr]
    intro s hs
    rw [beq_iff_eq]
    intro hsb
    exact habs (hsb ▸ List.mem_map_of_mem (·.date) hs)

/-- Claim C6, witness: the Reindexer applied to the two-row series
2024-07-08, 2024-07-10 — the output spans the three business days of the
span, introducing the missing Tuesday with no value. -/
theorem c6_witness :
    ∃ out,
      create_rows_for_missing_dates
          [{ date := 19912, value := some 2 },
           { date := 19914, value := some 3 }] = Except.ok out ∧
      out.map (·.date) =
        businessDayRange
          (minD (([{ date := 19912, value := some 2 },
              { date := 19914, value := some 3 }] : List MacroRow).map (·.date)))
          (maxD (([{ date := 19912, value := some 2 },
              { date := 19914, value := some 3 }] : List MacroRow).map (·.date))) ∧
      (out.map (·.date)).Nodup ∧
      (∀ r ∈ ([{ date := 19912, value := some 2 },
          { date := 19914, value := some 3 }] : List MacroRow),
        ∀ row ∈ out, row.date = r.date → row.value = r.value) ∧
      (∀ row ∈ out,
        row.date ∉ ([{ date := 19912, value := some 2 },
            { date := 19914, value := some 3 }] : List MacroRow).map (·.date) →
          row.value = none) :=
  c6_reindexer_output _ (by simp) (by decide)

/-- Claim C3, counterexample: the series with observations on Friday
2024-07-12 (day 19916) and Saturday 2024-07-13 (day 19917) loses its
Saturday row under the Reindexer even though 19917 lies inside the target
range `[min, max] = [19916, 19917]` — an in-range observation on a
non-business date is dropped. -/
theorem c3_counterexample :
    create_rows_for_missing_dates
        [{ date := 19916, value := some 5 }, { date := 19917, value := some 7 }] =
      Except.ok [{ date := 19916, value := some 5 }] ∧
    minD (([{ date := 19916, value := some 5 },
        { date := 19917, value := some 7 }] : List MacroRow).map (·.date)) ≤
      19917 ∧
    (19917 : ℤ) ≤
      maxD (([{ date := 19916, value := some 5 },
          { date := 19917, value := some 7 }] : List MacroRow).map (·.date)) ∧
    ∀ row ∈ [({ date := 19916, value := some 5 } : MacroRow)],
      row.date ≠ 19917 := by
  decide

/-- Claim C3, amended: on a nonempty series with unique dates, the
Reindexer never drops an input observation whose date is a business day
within the target range — such a row's value reappears in the output at
its date; observations on non-business dates inside the range are
dropped (and a duplicate-dated series makes `reindex` raise instead). -/
theorem c3_amended_business_rows_kept (df : List MacroRow)
    (hne : df ≠ []) (hnd : (df.map (·.date)).Nodup) (r : MacroRow)
    (hr : r ∈ df) (hb : isBusinessDay r.date = true) :
    ∃ out, create_rows_for_missing_dates df = Except.ok out ∧
      ∃ row ∈ out, row.date = r.date ∧ row.value = r.value := by
  refine ⟨_, create_rows_eq_ok df hne hnd, ?_⟩
  have hmem : r.date ∈
      businessDayRange (minD (df.map (·.date))) (maxD (df.map (·.date))) :=
    mem_businessDayRange.mpr
      ⟨minD_le (List.mem_map_of_mem (·.date) hr),
       le_maxD (List.mem_map_of_mem (·.date) hr), hb⟩
  refine ⟨_, List.mem_map_of_mem _ hmem, rfl, ?_⟩
  simp only
  rw [find?_date_eq hnd hr]

/-- Claim C3, witness: the amended theorem applied to the Friday–Saturday
series — the Friday row (a business day) survives reindexing with its
value. -/
theorem c3_witness :
    ∃ out,
      create_rows_for_missing_dates
          [{ date := 19916, value := some 5 },
           { date := 19917, value := some 7 }] = Except.ok out ∧
      ∃ row ∈ out, row.date = ({ date := 19916, value := some 5 } : MacroRow).date ∧
        row.value = ({ date := 19916, value := some 5 } : MacroRow).value :=
  c3_amended_business_rows_kept _ (by simp) (by decide) _
    (List.mem_cons_self _ _) (by decide)

/-- Keys of an outer join: the sorted, deduplicated union of the two
indices. -/
theorem outerJoin_keys (a b : Frame) :
    (outerJoin a b).rows.map (·.1) =
      sortedKeys (a.rows.map (·.1) ++ b.rows.map (·.1)) := by
  unfold outerJoin
  dsimp only
  rw [List.map_map]
  exact List.map_id' _

/-- Claim C2: in the unique-index regime the upstream pipeline
guarantees, the consolidated table produced by the merge step
(outer-joins, drop of the reference series' missing dates, forward-fill,
drop of incomplete rows) has no missing value in any cell, and its date
index is strictly increasing with no duplicate dates. -/
theorem c2_consolidated_clean (spy vix curve spread : Frame) (ms : List ℤ)
    (h1 : (spy.rows.map (·.1)).Nodup) (h2 : (vix.rows.map (·.1)).Nodup)
    (h3 : (curve.rows.map (·.1)).Nodup)
    (h4 : (spread.rows.map (·.1)).Nodup) :
    (∀ row ∈ (merge_market_and_macro_data spy vix curve spread ms).rows,
      ∀ v ∈ row.2, v.isSome = true) ∧
    List.Chain' (· < ·)
      ((merge_market_and_macro_data spy vix curve spread ms).rows.map (·.1)) := by
  constructor
  · intro row hrow v hv
    unfold merge_market_and_macro_data dropnaFrame at hrow
    dsimp only at hrow
    exact List.all_eq_true.mp (List.mem_filter.mp hrow).2 v hv
  · rw [List.chain'_iff_pairwise]
    unfold merge_market_and_macro_data dropnaFrame forward_fill_missing_data
      dropDates
    dsimp only
    have hP :
        ((outerJoin (outerJoin (outerJoin spy vix) curve) spread).rows.map
          (·.1)).Pairwise (· < ·) := by
      rw [outerJoin_keys]
      exact pairwise_sortedKeys _
    have hP2 :
        (((outerJoin (outerJoin (outerJoin spy vix) curve) spread).rows.filter
            (fun r => ! ms.contains r.1)).map (·.1)).Pairwise (· < ·) :=
      List.Pairwise.sublist (List.Sublist.map _ (List.filter_sublist _)) hP
    have hP3 :
        ((ffillRows
            (List.replicate
              (outerJoin (outerJoin (outerJoin spy vix) curve) spread).width
              none)
            ((outerJoin (outerJoin (outerJoin spy vix) curve) spread).rows.filter
              (fun r => ! ms.contains r.1))).map (·.1)).Pairwise (· < ·) := by
      rw [ffillRows_map_fst]
      exact hP2
    exact List.Pairwise.sublist (List.Sublist.map _ (List.filter_sublist _)) hP3

/-- Claim C2, witness: the merge applied to four tiny unique-index frames
with an overlapping and a disjoint date, one missing cell, and one
dropped reference date. -/
theorem c2_witness :
    (∀ row ∈ (merge_market_and_macro_data
        { width := 1, rows := [(1, [some 1]), (2, [some 2]), (3, [none])] }
        { width := 1, rows := [(2, [some 5]), (3, [some 6])] }
        { width := 1, rows := [(1, [some 7]), (3, [some 8])] }
        { width := 1, rows := [(1, [some 9]), (4, [some 10])] }
        [2]).rows,
      ∀ v ∈ row.2, v.isSome = true) ∧
    List.Chain' (· < ·)
      ((merge_market_and_macro_data
        { width := 1, rows := [(1, [some 1]), (2, [some 2]), (3, [none])] }
        { width := 1, rows := [(2, [some 5]), (3, [some 6])] }
        { width := 1, rows := [(1, [some 7]), (3, [some 8])] }
        { width := 1, rows := [(1, [some 9]), (4, [some 10])] }
        [2]).rows.map (·.1)) :=
  c2_consolidated_clean _ _ _ _ _ (by decide) (by decide) (by decide)
    (by decide)

/-- Two-row intraday example from the spec: the 09:30 and 16:00
observations of a single date. -/
def exampleIntraday : List IntradayRow :=
  [{ day := 0, minute := 570, open_ := 1, high := 2, low := 0,
     close := 2, volume := 100 },
   { day := 0, minute := 960, open_ := 2, high := 3, low := 1,
     close := 3, volume := 200 }]

/-- Claim C7: the Resampler produces exactly one bar per distinct
calendar date, whose open is the first value of the group in received
order, whose high and low are the group's maximum and minimum, whose
close is the last value of the group, and whose volume is the group's
sum; and on the spec's two-row example for one date it yields the single
bar (open 1, high 3, low 0, close 3, volume 300). -/
theorem c7_group_by_date_spec :
    (∀ (df : List IntradayRow) (d : ℤ), d ∈ df.map (·.day) →
      ((group_by_date df).map (·.date)).count d = 1 ∧
      ∃ bar ∈ group_by_date df, bar.date = d ∧
        bar.open_ = ((df.filter fun r => r.day == d).map (·.open_)).headD 0 ∧
        (∀ r ∈ df.filter fun r => r.day == d, r.high ≤ bar.high) ∧
        bar.high ∈ (df.filter fun r => r.day == d).map (·.high) ∧
        (∀ r ∈ df.filter fun r => r.day == d, bar.low ≤ r.low) ∧
        bar.low ∈ (df.filter fun r => r.day == d).map (·.low) ∧
        bar.close = ((df.filter fun r => r.day == d).map (·.close)).getLastD 0 ∧
        bar.volume = ((df.filter fun r => r.day == d).map (·.volume)).sum) ∧
    group_by_date exampleIntraday =
      [{ date := 0, open_ := 1, high := 3, low := 0, close := 3,
         volume := 300 }] := by
  constructor
  · intro df d hd
    obtain ⟨r0, hr0, hr0d⟩ := List.mem_map.mp hd
    have hr0g : r0 ∈ df.filter fun r => r.day == d :=
      List.mem_filter.mpr ⟨hr0, beq_iff_eq.mpr hr0d⟩
    have hgne : (df.filter fun r => r.day == d) ≠ [] :=
      List.ne_nil_of_mem hr0g
    constructor
    · rw [group_by_date_dates]
      exact List.count_eq_one_of_mem (nodup_sortedKeys _)
        (mem_sortedKeys.mpr hd)
    · refine ⟨_, List.mem_map_of_mem _ (mem_sortedKeys.mpr hd), rfl, rfl,
        ?_, ?_, ?_, ?_, rfl, rfl⟩
      · intro r hrg
        exact le_listMax (List.mem_map_of_mem (·.high) hrg)
      · refine listMax_mem ?_
        intro h
        exact hgne (List.map_eq_nil_iff.mp h)
      · intro r hrg
        exact listMin_le (List.mem_map_of_mem (·.low) hrg)
      · refine listMin_mem ?_
        intro h
        exact hgne (List.map_eq_nil_iff.mp h)
  · simp [exampleIntraday, group_by_date, sortedKeys, insertKey, listMax,
      listMin]
    norm_num

/-- Claim C7, witness: the universal half of the resampling theorem
instantiated at the spec's two-row example and its date. -/
theorem c7_witness :
    ((0 : ℤ) ∈ exampleIntraday.map (·.day)) ∧
    (((group_by_date exampleIntraday).map (·.date)).count 0 = 1 ∧
      ∃ bar ∈ group_by_date exampleIntraday, bar.date = 0 ∧
        bar.open_ =
          ((exampleIntraday.filter fun r => r.day == 0).map (·.open_)).headD 0 ∧
        (∀ r ∈ exampleIntraday.filter fun r => r.day == 0,
          r.high ≤ bar.high) ∧
        bar.high ∈ (exampleIntraday.filter fun r => r.day == 0).map (·.high) ∧
        (∀ r ∈ exampleIntraday.filter fun r => r.day == 0,
          bar.low ≤ r.low) ∧
        bar.low ∈ (exampleIntraday.filter fun r => r.day == 0).map (·.low) ∧
        bar.close =
          ((exampleIntraday.filter fun r => r.day == 0).map
            (·.close)).getLastD 0 ∧
        bar.volume =
          ((exampleIntraday.filter fun r => r.day == 0).map (·.volume)).sum) :=
  ⟨by decide, c7_group_by_date_spec.1 exampleIntraday 0 (by decide)⟩

end MarketRegime
